import Mathlib

/-! # sde_vol_extract: the directory parser of `sde_vol_extract.c`

A shallow embedding of `main` of `sde_vol_extract.c` and theorems about it.

Modelling conventions.

* The opened archive `f` is a list of bytes together with a cursor, a natural
  number.  `long`, the type of a position in `fseek` and `ftell`, is 64 bits
  wide and holds every cursor; `int` is 32 bits wide, so `int currPos =
  ftell(f)` keeps the cursor only below `2^31` (`toInt`).  A seek to a
  non-negative target succeeds (also past the end, where every later read is
  short); a seek to a negative target fails and leaves the cursor (`fseek`).
* Values of the program's `u32`/`u16` variables are natural numbers; the one
  arithmetic expression of the program, `e.offset + 0x04`, is taken modulo
  `2^32`.
* Everything the program does to the outside is recorded, in program order,
  as a list of `Event`s: the reads and seeks on `f`, the lines printed with
  `printf` (to stdout) and with `fprintf(out, ...)`, the `_mkdir` calls and the
  files written.  A print event keeps the format string of the source and its
  arguments; the `%s` argument `e.name` is recorded as the buffer, its
  `nameLength` bytes.  `_mkdir` and `fopen` read `e.name` as a C string: the
  path of a `mkdir` or `save` event is the name up to its first NUL (`cstr`).
* The environment `Env` answers the two requests whose outcome the program
  never checks and whose argument the archive chooses: `malloc` of the array
  `entries` and of the data buffer, and `fopen(e.name, "wb")`.  The same
  request gets the same answer throughout a run.  The name buffer, 4097 bytes
  at most, is taken to be granted.  A byte of a fresh `malloc` block is
  indeterminate: a buffer is a list of `Option u8`, `none` standing for a byte
  that was never written.
* The use of a null pointer (an element of the null array `entries`, a read of
  `length > 0` bytes into a null block, a write to a null stream) is undefined
  in C and kills the run on the host.  The model ends the run at the first
  such use: the trace ends with the event `fault` and the exit indicator is
  `faultStatus`.  What a theorem says of a finished extraction is said under
  the hypothesis that the data buffer was granted.
-/

namespace SdeVolExtract

/-! ## Data model -/

/-- The byte type `u8` of the source. -/
abbrev u8 := UInt8

/-- File tag, `#define VOL_TYPE_FILE 0x00000080`. -/
def VOL_TYPE_FILE : Nat := 0x00000080

/-- Directory tag, `#define VOL_TYPE_DIR 0x00000010`. -/
def VOL_TYPE_DIR : Nat := 0x00000010

/-- The record `struct _entry`: six `u32` fields, a `u16` name length and the
name (the bytes of the buffer `name` points to). -/
structure entry where
  type : Nat
  w1 : Nat
  length : Nat
  offset : Nat
  ff1 : Nat
  ff2 : Nat
  nameLength : Nat
  name : List u8
deriving DecidableEq

/-- An argument of a `printf`/`fprintf` call. -/
inductive Arg where
  /-- an integer argument of a `%08X` or `%04X` conversion -/
  | num (v : Nat)
  /-- a `%s` argument that is a string literal of the source -/
  | lit (s : String)
  /-- a `%s` argument that is a byte buffer of the program -/
  | buf (bytes : List u8)
  /-- the `%s` argument `argv[i]` -/
  | argv (i : Nat)
deriving DecidableEq

/-- Where `out` points: `stdout` (one argument) or the opened log file. -/
inductive Sink where
  | stdout
  | log
deriving DecidableEq

/-- One externally visible step of the program. -/
inductive Event where
  /-- `printf(fmt, args)`: a diagnostic on stdout -/
  | printf (fmt : String) (args : List Arg)
  /-- `fprintf(out, fmt, args)`: a line of the report -/
  | fprintf (out : Sink) (fmt : String) (args : List Arg)
  /-- `fread(_, size, 1, f)` issued while the cursor of `f` is `pos` -/
  | fread (pos : Nat) (size : Nat)
  /-- `fseek(f, target, SEEK_SET)` -/
  | fseek (target : Int)
  /-- `_mkdir(name)` -/
  | mkdir (name : List u8)
  /-- `sav = fopen(name, "wb"); fwrite(buffer, length, 1, sav); fclose(sav)` -/
  | save (name : List u8) (buffer : List (Option u8))
  /-- `fopen(name, "wb")` returned a null stream -/
  | fopenFailed (name : List u8)
  /-- the use of a null pointer, which ends the run -/
  | fault
deriving DecidableEq

/-- What the run gets from its environment. -/
structure Env where
  /-- whether `malloc(size)` returns a block -/
  malloc : Nat → Bool
  /-- whether `fopen(path, "wb")` returns a stream -/
  fopen : List u8 → Bool

/-- The value of `sizeof(entry)`: the 26 packed bytes of the record and the
8 bytes of the pointer `name`. -/
def sizeofEntry : Nat := 34

/-- The exit indicator of a run killed by a fault (128 + 11, what a shell
reports for SIGSEGV); all that matters is that it is not 0. -/
def faultStatus : Nat := 139

/-! ## The byte source -/

/-- Little-endian value of a sequence of bytes (the host is little-endian, so
this is the value of an integer variable whose storage holds these bytes). -/
def le : List u8 → Nat
  | [] => 0
  | b :: bs => b.toNat + 256 * le bs

/-- Outcome of `fread(ptr, size, 1, f)`. -/
structure Fread where
  /-- the bytes stored at `ptr` -/
  buf : List u8
  /-- the cursor of `f` after the call -/
  pos : Nat
  /-- the return value: the number of complete items read, 0 or 1 -/
  ret : Nat
deriving DecidableEq

/-- The call `fread(ptr, size, 1, f)` on the stream `f` with cursor `pos`.
With `size = 0` nothing is read and 0 is returned.  Otherwise the bytes that
are available, `size` at most, are stored and the cursor moves past them; the
return value is 1 when all `size` bytes were there and 0 when the read was
short. -/
def fread (f : List u8) (pos size : Nat) : Fread :=
  if size = 0 then ⟨[], pos, 0⟩
  else
    let got := (f.drop pos).take size
    ⟨got, pos + got.length, if got.length = size then 1 else 0⟩

/-- The integer field of `width` bytes at byte offset `off` of a packed
record held in `buf`. -/
def field (buf : List u8) (off width : Nat) : Nat :=
  le ((buf.drop off).take width)

/-- The C string held in a NUL-terminated buffer: the bytes before the first
NUL. -/
def cstr (buf : List u8) : List u8 :=
  buf.takeWhile fun b => b ≠ 0

/-- The value `int currPos = ftell(f)` gets for the cursor `pos`: the low 32
bits of `pos`, read as a signed number. -/
def toInt (pos : Nat) : Int :=
  if pos % 2 ^ 32 < 2 ^ 31 then (pos % 2 ^ 32 : Nat) else ((pos % 2 ^ 32 : Nat) : Int) - 2 ^ 32

/-- The cursor after `fseek(f, target, SEEK_SET)` issued at the cursor `pos`:
a negative target is refused and the cursor stays. -/
def fseek (pos : Nat) (target : Int) : Nat :=
  if target < 0 then pos else target.toNat

/-! ## The loop body -/

/-- Outcome of lines 145-163, the decoding of one entry. -/
structure Decode where
  /-- the reads issued -/
  events : List Event
  /-- the cursor of `f` afterwards -/
  pos : Nat
  /-- the entry `e`, or `none` when one of the three `break`s was taken -/
  decoded : Option entry
deriving DecidableEq

/-- Lines 145-163: read the 0x1a bytes of the packed record into `e`, stop
when that read is short or when `e.nameLength > 4096`, then read
`e.nameLength` bytes into `newname` and stop when that read is short. -/
def decode (f : List u8) (pos : Nat) : Decode :=
  let r := fread f pos 0x1a
  if r.ret ≠ 1 then ⟨[.fread pos 0x1a], r.pos, none⟩
  else
    let nameLength := field r.buf 24 2
    if nameLength > 4096 then ⟨[.fread pos 0x1a], r.pos, none⟩
    else
      let n := fread f r.pos nameLength
      if n.ret ≠ 1 then ⟨[.fread pos 0x1a, .fread r.pos nameLength], n.pos, none⟩
      else
        ⟨[.fread pos 0x1a, .fread r.pos nameLength], n.pos,
          some { type := field r.buf 0 4, w1 := field r.buf 4 4,
                 length := field r.buf 8 4, offset := field r.buf 12 4,
                 ff1 := field r.buf 16 4, ff2 := field r.buf 20 4,
                 nameLength := nameLength, name := n.buf }⟩

/-- Lines 165-172: the eight report lines of one entry. -/
def report (out : Sink) (e : entry) : List Event :=
  [ .fprintf out "\ntype:       0x%08X (%s)\n"
      [.num e.type,
       .lit (if e.type = VOL_TYPE_FILE then "file"
             else if e.type = VOL_TYPE_DIR then "dir" else "???")],
    .fprintf out "w1:         0x%08X\n" [.num e.w1],
    .fprintf out "length:     0x%08X\n" [.num e.length],
    .fprintf out "offset:     0x%08X\n" [.num e.offset],
    .fprintf out "ff1:        0x%08X\n" [.num e.ff1],
    .fprintf out "ff2:        0x%08X\n" [.num e.ff2],
    .fprintf out "nameLength: 0x%04X\n" [.num e.nameLength],
    .fprintf out "name:       \"%s\"\n" [.buf e.name] ]

/-- Outcome of a piece of the loop body that cannot `break`. -/
structure Step where
  events : List Event
  pos : Nat
  /-- whether the run was killed -/
  fault : Bool
deriving DecidableEq

/-- Lines 176-186, the extraction of a file entry: remember the cursor in an
`int`, allocate `e.length` bytes, seek to `e.offset + 0x04` (in `u32`), read
`e.length` bytes there (the return value is not looked at), seek back, open the
file `e.name` and write the whole buffer to it.  No result is checked: a read
of `e.length > 0` bytes into a null block and a write to a null stream kill
the run. -/
def extract (env : Env) (f : List u8) (pos : Nat) (e : entry) : Step :=
  let currPos := toInt pos
  let target := (e.offset + 0x04) % 2 ^ 32
  let r := fread f target e.length
  if e.length ≠ 0 ∧ env.malloc e.length = false then
    ⟨[.fseek target, .fread target e.length, .fault], r.pos, true⟩
  else
    let buffer : List (Option u8) :=
      r.buf.map some ++ (List.replicate e.length none).drop r.buf.length
    if env.fopen (cstr e.name) = true then
      ⟨[.fseek target, .fread target e.length, .fseek currPos, .save (cstr e.name) buffer],
        fseek r.pos currPos, false⟩
    else
      ⟨[.fseek target, .fread target e.length, .fseek currPos, .fopenFailed (cstr e.name),
        .fault], fseek r.pos currPos, true⟩

/-- Lines 174-191, the action taken for the decoded entry `e`.  `e.name[0]` is
the first byte of the NUL-terminated buffer. -/
def act (env : Env) (argc : Nat) (f : List u8) (pos : Nat) (e : entry) : Step :=
  if e.type = VOL_TYPE_FILE ∧ argc = 2 then extract env f pos e
  else if argc = 2 ∧ ¬(e.nameLength = 1 ∧ e.name.headD 0 = 46) then
    ⟨[.mkdir (cstr e.name)], pos, false⟩
  else ⟨[], pos, false⟩

/-- Outcome of one iteration of the loop. -/
structure Iteration where
  events : List Event
  pos : Nat
  /-- the entry `e`, or `none` when the iteration left the loop with `break` -/
  decoded : Option entry
  /-- whether the run was killed in this iteration -/
  fault : Bool
deriving DecidableEq

/-- Lines 145-191, one iteration of the `for` loop once `e` is copied:
decode, report, act. -/
def iteration (env : Env) (argc : Nat) (out : Sink) (f : List u8) (pos : Nat) : Iteration :=
  let d := decode f pos
  match d.decoded with
  | none => ⟨d.events, d.pos, none, false⟩
  | some e =>
    let a := act env argc f d.pos e
    ⟨d.events ++ report out e ++ a.events, a.pos, some e, a.fault⟩

/-! ## The loop and `main` -/

/-- Outcome of the `for` loop. -/
structure Loop where
  /-- the entries decoded, in the order of the iterations -/
  entries : List entry
  events : List Event
  pos : Nat
  /-- whether the run was killed in the loop -/
  fault : Bool
deriving DecidableEq

/-- Lines 139-192, `for (i = 0; i < count; i++)` with the array `entries`
allocated, by recursion on the number `count - i` of iterations still allowed.
`i` is used for nothing else than the copy `entries[i]`, all of whose fields
are overwritten before they are read. -/
def loop (env : Env) (argc : Nat) (out : Sink) (f : List u8) : Nat → Nat → Loop
  | 0, pos => ⟨[], [], pos, false⟩
  | n + 1, pos =>
    let it := iteration env argc out f pos
    match it.decoded with
    | none => ⟨[], it.events, it.pos, false⟩
    | some e =>
      if it.fault then ⟨[e], it.events, it.pos, true⟩
      else
        let r := loop env argc out f n it.pos
        ⟨e :: r.entries, it.events ++ r.events, r.pos, r.fault⟩

/-- Outcome of a run of `main`. -/
structure Result where
  /-- the exit indicator: `r` as `main` returns it, or `faultStatus` -/
  exit : Nat
  /-- the entries decoded by the loop, in order -/
  entries : List entry
  /-- everything the run did, in order -/
  trace : List Event
deriving DecidableEq

/-- Lines 118-205, `main` once `f` and `out` are open.  `uninit` is the
indeterminate content of the local `offset`, which the program uses when the
unchecked first read is short.  The array `entries` of line 137 is not
checked: when it is null, the copy `entries[i]` of line 143 kills the run in
the first iteration. -/
def run (env : Env) (argc : Nat) (out : Sink) (f : List u8) (uninit : Nat) : Result :=
  let r0 := fread f 0 4
  let offset := if r0.ret = 1 then le r0.buf else uninit % 2 ^ 32
  if offset = 0x4C4F5650 then
    ⟨1, [], [.fread 0 4,
      .printf "this looks like a PVOL file, try a program that supports other .vol files\n" []]⟩
  else
    let r1 := fread f offset 4
    if r1.ret ≠ 1 then
      ⟨1, [], [.fread 0 4, .fprintf out "offset:     0x%08X\n" [.num offset], .fseek offset,
        .fread offset 4, .printf "file incorrect format\n" []]⟩
    else
      let count := le r1.buf
      if count ≠ 0 ∧ env.malloc (sizeofEntry * count) = false then
        ⟨faultStatus, [],
          [.fread 0 4, .fprintf out "offset:     0x%08X\n" [.num offset], .fseek offset,
            .fread offset 4, .fprintf out "count:      0x%08X\n" [.num count], .fault]⟩
      else
        let l := loop env argc out f count r1.pos
        ⟨if l.fault then faultStatus else 0, l.entries,
          [.fread 0 4, .fprintf out "offset:     0x%08X\n" [.num offset], .fseek offset,
            .fread offset 4, .fprintf out "count:      0x%08X\n" [.num count]] ++ l.events⟩

/-- The function `main`.  `input` is the content of the file `argv[1]`, `none`
when it cannot be opened; `logOk` says whether `fopen(argv[2], "w")`
succeeds. -/
def main (env : Env) (argc : Nat) (input : Option (List u8)) (logOk : Bool) (uninit : Nat) :
    Result :=
  if argc > 2 then
    match input with
    | none => ⟨1, [], [.printf "file can't be opened\n" []]⟩
    | some f =>
      if logOk then run env argc .log f uninit
      else ⟨1, [], [.printf "log can't be opened for writin\n" []]⟩
  else if argc > 1 then
    match input with
    | none => ⟨1, [], [.printf "file can't be opened\n" []]⟩
    | some f => run env argc .stdout f uninit
  else
    ⟨1, [], [.printf "usage: %s file.vol [log.txt]\n(files are not dumped if log is enabled)\n"
      [.argv 0]]⟩

/-- The events that act on the file system: `_mkdir` and file writes. -/
def fsActions (tr : List Event) : List Event :=
  tr.filter fun ev =>
    match ev with
    | .mkdir _ => true
    | .save _ _ => true
    | _ => false

/-- The lines of the report: the `fprintf(out, ...)` calls. -/
def reportLines (tr : List Event) : List Event :=
  tr.filter fun ev =>
    match ev with
    | .fprintf _ _ _ => true
    | _ => false

/-- The accesses to the archive: the `fread` and `fseek` calls. -/
def accesses (tr : List Event) : List Event :=
  tr.filter fun ev =>
    match ev with
    | .fread _ _ => true
    | .fseek _ => true
    | _ => false

/-! ## The container layout of the specification -/

/-- The `width` bytes of the little-endian representation of `v`. -/
def bytesLE : Nat → Nat → List u8
  | 0, _ => []
  | w + 1, v => UInt8.ofNat (v % 256) :: bytesLE w (v / 256)

/-- The packed record of an entry: six `u32`, the `u16` name length, the
name bytes. -/
def encode (e : entry) : List u8 :=
  bytesLE 4 e.type ++ bytesLE 4 e.w1 ++ bytesLE 4 e.length ++ bytesLE 4 e.offset ++
    bytesLE 4 e.ff1 ++ bytesLE 4 e.ff2 ++ bytesLE 2 e.nameLength ++ e.name

/-- An entry whose fields fit their types and whose name has `nameLength`
bytes. -/
abbrev Fits (e : entry) : Prop :=
  e.type < 2 ^ 32 ∧ e.w1 < 2 ^ 32 ∧ e.length < 2 ^ 32 ∧ e.offset < 2 ^ 32 ∧
    e.ff1 < 2 ^ 32 ∧ e.ff2 < 2 ^ 32 ∧ e.nameLength < 2 ^ 16 ∧ e.name.length = e.nameLength

/-- A record the loop accepts: it fits and `1 ≤ nameLength ≤ 4096`. -/
abbrev Valid (e : entry) : Prop :=
  Fits e ∧ 1 ≤ e.nameLength ∧ e.nameLength ≤ 4096

/-- The events of the iterations that process the records `recs`, the first
of which starts at `pos`. -/
def tableEvents (env : Env) (argc : Nat) (out : Sink) (f : List u8) :
    Nat → List entry → List Event
  | _, [] => []
  | pos, e :: es =>
    [.fread pos 26, .fread (pos + 26) e.nameLength] ++ report out e ++
      (act env argc f (pos + 26 + e.nameLength) e).events ++
      tableEvents env argc out f (pos + 26 + e.nameLength) es

/-- What the extraction of the file entry `e`, whose record starts at `pos`,
needs to run to its end: the cursor after the record fits an `int`, the data
buffer is granted (for `length = 0` no block is used) and the destination can
be opened. -/
abbrev CanExtract (env : Env) (pos : Nat) (e : entry) : Prop :=
  pos + 26 + e.nameLength < 2 ^ 31 ∧ (e.length = 0 ∨ env.malloc e.length = true) ∧
    env.fopen (cstr e.name) = true

/-- In extract mode every file entry of the table `recs`, whose first record
starts at `pos`, can be extracted. -/
def Served (env : Env) (argc : Nat) : Nat → List entry → Prop
  | _, [] => True
  | pos, e :: es =>
    (argc = 2 → e.type = VOL_TYPE_FILE → CanExtract env pos e) ∧
      Served env argc (pos + 26 + e.nameLength) es

/-- Whether the table is served can be computed. -/
instance Served.decide (env : Env) (argc : Nat) :
    ∀ (pos : Nat) (recs : List entry), Decidable (Served env argc pos recs)
  | _, [] => isTrue trivial
  | pos, e :: es =>
    have : Decidable (Served env argc (pos + 26 + e.nameLength) es) :=
      Served.decide env argc (pos + 26 + e.nameLength) es
    inferInstanceAs (Decidable ((argc = 2 → e.type = VOL_TYPE_FILE → CanExtract env pos e) ∧
      Served env argc (pos + 26 + e.nameLength) es))

/-- The array `entries` of `count` elements is there when the loop runs. -/
abbrev Allocated (env : Env) (count : Nat) : Prop :=
  count = 0 ∨ env.malloc (sizeofEntry * count) = true

/-- The sink `out` chosen by lines 82-116. -/
def outOf (argc : Nat) : Sink := if argc > 2 then .log else .stdout

/-- The two modes in which the archive is parsed: extract mode (`argc = 2`)
and report mode (`argc > 2`, the log file open). -/
abbrev Parses (argc : Nat) (logOk : Bool) : Prop := argc = 2 ∨ (2 < argc ∧ logOk = true)

/-- The events of lines 118-135 when the header is read: the two reads, the
seek and the two header lines. -/
def headerEvents (out : Sink) (offset count : Nat) : List Event :=
  [.fread 0 4, .fprintf out "offset:     0x%08X\n" [.num offset], .fseek offset,
    .fread offset 4, .fprintf out "count:      0x%08X\n" [.num count]]

/-- A container: `pre` (which starts with the table offset), the entry count
`n`, the records `recs`, and whatever follows. -/
def container (pre : List u8) (n : Nat) (recs : List entry) (rest : List u8) : List u8 :=
  pre ++ (bytesLE 4 n ++ (recs.flatMap encode ++ rest))

/-! ## Sample containers -/

/-- The directory entry "." that conventionally opens a table. -/
def dotEntry : entry := ⟨0x10, 0, 0, 0, 1, 0xFFFFFFFF, 1, [46]⟩

/-- A file entry "a" with one byte of data at position 0x3A + 4. -/
def fileEntry : entry := ⟨0x80, 1, 1, 0x3A, 0xFFFFFFFF, 1, 1, [97]⟩

/-- A directory entry "d". -/
def dirEntry : entry := ⟨0x10, 0, 0, 0, 2, 0xFFFFFFFF, 1, [100]⟩

/-- The leading bytes of the sample containers: the table offset 4. -/
def samplePre : List u8 := [4, 0, 0, 0]

/-- A sample container, byte by byte: table at offset 4, two entries (the
directory "." and the file "a"), then the data byte 0x2A of "a" at position
0x3A + 4. -/
def sample : List u8 :=
  [4, 0, 0, 0,  2, 0, 0, 0,
   0x10, 0, 0, 0,  0, 0, 0, 0,  0, 0, 0, 0,  0, 0, 0, 0,
   1, 0, 0, 0,  0xFF, 0xFF, 0xFF, 0xFF,  1, 0,  46,
   0x80, 0, 0, 0,  1, 0, 0, 0,  1, 0, 0, 0,  0x3A, 0, 0, 0,
   0xFF, 0xFF, 0xFF, 0xFF,  1, 0, 0, 0,  1, 0,  97,
   0x2A]

/-- A file entry whose `offset + 4` does not fit in 32 bits. -/
def wrapEntry : entry := ⟨0x80, 1, 1, 0xFFFFFFFC, 0xFFFFFFFF, 1, 1, [97]⟩

/-- The first 35 bytes of `wrapStream`: table offset 4, count 1, the record
of `wrapEntry`. -/
def wrapHead : List u8 :=
  [4, 0, 0, 0,  1, 0, 0, 0,
   0x80, 0, 0, 0,  1, 0, 0, 0,  1, 0, 0, 0,  0xFC, 0xFF, 0xFF, 0xFF,
   0xFF, 0xFF, 0xFF, 0xFF,  1, 0, 0, 0,  1, 0,  97]

/-- A container of `2^32 + 1` bytes: `wrapHead`, zeros up to position `2^32`,
and the byte 0xAA at position `2^32 = wrapEntry.offset + 4`. -/
def wrapStream : List u8 :=
  wrapHead ++ (List.replicate 4294967261 0 ++ [0xAA])

/-- A container whose table offset is 0x56504F4C: the bytes 4C 4F 50 56,
zeros up to the table, the count 1 and the record of `dirEntry`. -/
def lopvStream : List u8 :=
  container ([0x4C, 0x4F, 0x50, 0x56] ++ List.replicate 1448103752 0) 1 [dirEntry] []

/-- An entry of unknown kind 0x20 named "x". -/
def unknownEntry : entry := ⟨0x20, 0, 0, 0, 0, 0, 1, [120]⟩

/-- A container with the single entry `unknownEntry`. -/
def unknownSample : List u8 :=
  [4, 0, 0, 0,  1, 0, 0, 0,
   0x20, 0, 0, 0,  0, 0, 0, 0,  0, 0, 0, 0,  0, 0, 0, 0,
   0, 0, 0, 0,  0, 0, 0, 0,  1, 0,  120]

/-- An action on the file system, as lines 174-191 take it for one entry:
the creation of a directory, the extraction of `length` bytes found at the
position `target` into a file, or nothing. -/
inductive Action where
  | createDirectory (name : List u8)
  | extractFile (name : List u8) (target : Nat) (length : Nat)
  | ignore
deriving DecidableEq

/-- The action read off the events of lines 174-191: one `_mkdir`, or the
seek to the data, the read, the seek back and the write, or nothing. -/
def actionOf (evs : List Event) : Action :=
  match evs with
  | [.mkdir name] => .createDirectory name
  | [.fseek target, .fread _ length, .fseek _, .save name _] =>
    .extractFile name target.toNat length
  | _ => .ignore

/-! ## More sample containers -/

/-- A container with two records: a directory record whose name length is 0,
then the record of `dirEntry`. -/
def emptyNameSample : List u8 :=
  [4, 0, 0, 0,  2, 0, 0, 0,
   0x10, 0, 0, 0,  0, 0, 0, 0,  0, 0, 0, 0,  0, 0, 0, 0,
   1, 0, 0, 0,  0xFF, 0xFF, 0xFF, 0xFF,  0, 0,
   0x10, 0, 0, 0,  0, 0, 0, 0,  0, 0, 0, 0,  0, 0, 0, 0,
   2, 0, 0, 0,  0xFF, 0xFF, 0xFF, 0xFF,  1, 0,  100]

/-- A sample environment: a block of up to 4 GiB is granted, and every path
can be opened for writing except the empty path and ".", which name no
file. -/
def hostEnv : Env :=
  ⟨fun size => decide (size ≤ 2 ^ 32), fun path => decide (path ≠ [] ∧ path ≠ [46])⟩

/-- A file entry named "." with one byte of data at position 0x3A + 4. -/
def dotFile : entry := ⟨0x80, 1, 1, 0x3A, 0xFFFFFFFF, 1, 1, [46]⟩

/-- A directory entry whose 2-byte name is "." followed by a NUL. -/
def nulDir : entry := ⟨0x10, 0, 0, 0, 2, 0xFFFFFFFF, 2, [46, 0]⟩

theorem toNat_ofNat_u8 (n : Nat) : (UInt8.ofNat n).toNat = n % 256 := rfl

theorem length_bytesLE (w v : Nat) : (bytesLE w v).length = w := by
  induction w generalizing v with
  | zero => rfl
  | succ w ih => simp [bytesLE, ih]

theorem le_bytesLE (w v : Nat) : le (bytesLE w v) = v % 256 ^ w := by
  induction w generalizing v with
  | zero => simp [bytesLE, le, Nat.mod_one]
  | succ w ih =>
    simp only [bytesLE, le, ih, toNat_ofNat_u8]
    rw [pow_succ', Nat.mod_mul, Nat.mod_mod]

theorem le_bytesLE_of_lt (w v : Nat) (h : v < 256 ^ w) : le (bytesLE w v) = v := by
  rw [le_bytesLE, Nat.mod_eq_of_lt h]

theorem le_lt (bs : List u8) : le bs < 256 ^ bs.length := by
  induction bs with
  | nil => simp [le]
  | cons b bs ih =>
    have hb : b.toNat < 256 := b.toNat_lt
    simp only [le, List.length_cons, pow_succ]
    omega

theorem fread_zero (f : List u8) (pos : Nat) : fread f pos 0 = ⟨[], pos, 0⟩ := by
  simp [fread]

theorem fread_full (f : List u8) (pos size : Nat) (h0 : size ≠ 0)
    (h : pos + size ≤ f.length) :
    fread f pos size = ⟨(f.drop pos).take size, pos + size, 1⟩ := by
  have hl : ((f.drop pos).take size).length = size := by
    rw [List.length_take, List.length_drop]; omega
  simp [fread, h0, hl]

theorem fread_short (f : List u8) (pos size : Nat) (h : f.length < pos + size) :
    (fread f pos size).ret = 0 := by
  unfold fread
  split
  · rfl
  · have hl : ((f.drop pos).take size).length ≠ size := by
      rw [List.length_take, List.length_drop]; omega
    simp only [hl, if_false]

theorem fread_ret_one (f : List u8) (pos size : Nat) (h : (fread f pos size).ret = 1) :
    size ≠ 0 ∧ pos + size ≤ f.length := by
  constructor
  · intro h0; subst h0; simp [fread] at h
  · by_contra hc
    rw [fread_short f pos size (by omega)] at h
    exact absurd h (by decide)

theorem fread_header (f : List u8) (h4 : 4 ≤ f.length) :
    fread f 0 4 = ⟨f.take 4, 4, 1⟩ := by
  rw [fread_full f 0 4 (by decide) (by omega)]
  simp

theorem field_take_drop (f : List u8) (p m off w : Nat) (h : off + w ≤ m) :
    field ((f.drop p).take m) off w = field f (p + off) w := by
  unfold field
  rw [List.drop_take, List.take_take, List.drop_drop, Nat.min_eq_left (by omega)]

theorem field_zero (buf : List u8) (w : Nat) : field buf 0 w = le (buf.take w) := by
  simp [field]

theorem decode_ok (f : List u8) (p n : Nat) (hn : n = field f (p + 24) 2)
    (h1 : 1 ≤ n) (h2 : n ≤ 4096) (hav : p + 26 + n ≤ f.length) :
    decode f p =
      ⟨[.fread p 26, .fread (p + 26) n], p + 26 + n,
        some { type := field f p 4, w1 := field f (p + 4) 4, length := field f (p + 8) 4,
               offset := field f (p + 12) 4, ff1 := field f (p + 16) 4,
               ff2 := field f (p + 20) 4, nameLength := n,
               name := (f.drop (p + 26)).take n }⟩ := by
  have hr : fread f p 0x1a = ⟨(f.drop p).take 26, p + 26, 1⟩ :=
    fread_full f p 26 (by decide) (by omega)
  have hnl : field ((f.drop p).take 26) 24 2 = n := by
    rw [field_take_drop f p 26 24 2 (by decide), hn]
  have hname : fread f (p + 26) n = ⟨(f.drop (p + 26)).take n, p + 26 + n, 1⟩ :=
    fread_full f (p + 26) n (by omega) (by omega)
  unfold decode
  simp only [hr, hnl, hname, ne_eq, not_true_eq_false, if_false, gt_iff_lt,
    show ¬ (4096 < n) from by omega]
  rw [field_take_drop f p 26 0 4 (by decide), field_take_drop f p 26 4 4 (by decide),
    field_take_drop f p 26 8 4 (by decide), field_take_drop f p 26 12 4 (by decide),
    field_take_drop f p 26 16 4 (by decide), field_take_drop f p 26 20 4 (by decide)]
  rfl

theorem field_skip (a l : List u8) (off w k : Nat) (hk : k = a.length + off) :
    field (a ++ l) k w = field l off w := by
  subst hk
  simp [field]

theorem field_head (b c : List u8) (w : Nat) (hw : w = b.length) :
    field (b ++ c) 0 w = le b := by
  subst hw
  simp [field]

theorem length_encode (e : entry) : (encode e).length = 26 + e.name.length := by
  simp only [encode, List.length_append, length_bytesLE]

theorem decode_encode (pre rest : List u8) (e : entry) (hv : Valid e) :
    decode (pre ++ (encode e ++ rest)) pre.length =
      ⟨[.fread pre.length 26, .fread (pre.length + 26) e.nameLength],
        pre.length + 26 + e.nameLength, some e⟩ := by
  obtain ⟨⟨ht, hw1, hlen, hoff, hff1, hff2, hnl, hname⟩, h1, h2⟩ := hv
  have hf : pre ++ (encode e ++ rest) =
      pre ++ (bytesLE 4 e.type ++ (bytesLE 4 e.w1 ++ (bytesLE 4 e.length ++
        (bytesLE 4 e.offset ++ (bytesLE 4 e.ff1 ++ (bytesLE 4 e.ff2 ++
          (bytesLE 2 e.nameLength ++ (e.name ++ rest)))))))) := by
    simp only [encode, List.append_assoc]
  have L4 : ∀ v, (bytesLE 4 v).length = 4 := fun v => length_bytesLE 4 v
  have L2 : ∀ v, (bytesLE 2 v).length = 2 := fun v => length_bytesLE 2 v
  have F : ∀ (off : Nat) (l : List u8) (v : Nat), 
      field (bytesLE 4 v ++ l) (off + 4) 4 = field l off 4 := fun off l v =>
    field_skip _ _ off 4 _ (by rw [L4]; omega)
  have F2 : ∀ (off : Nat) (l : List u8) (v : Nat), 
      field (bytesLE 4 v ++ l) (off + 4) 2 = field l off 2 := fun off l v =>
    field_skip _ _ off 2 _ (by rw [L4]; omega)
  have H : ∀ (l : List u8) (v : Nat), v < 2 ^ 32 → field (bytesLE 4 v ++ l) 0 4 = v :=
    fun l v hv => by
      rw [field_head _ _ 4 (L4 v).symm, le_bytesLE_of_lt 4 v (by simpa using hv)]
  have hlenf : pre.length + 26 + e.nameLength ≤ (pre ++ (encode e ++ rest)).length := by
    simp only [List.length_append, length_encode]; omega
  have hnlf : e.nameLength = field (pre ++ (encode e ++ rest)) (pre.length + 24) 2 := by
    rw [hf, field_skip pre _ 24 2 _ rfl, F2 20, F2 16, F2 12, F2 8, F2 4, F2 0,
      field_head _ _ 2 (L2 _).symm, le_bytesLE_of_lt 2 _ (by simpa using hnl)]
  rw [decode_ok _ pre.length e.nameLength hnlf h1 h2 hlenf]
  have e1 : field (pre ++ (encode e ++ rest)) pre.length 4 = e.type := by
    rw [hf, field_skip pre _ 0 4 pre.length rfl, H _ _ ht]
  have e2 : field (pre ++ (encode e ++ rest)) (pre.length + 4) 4 = e.w1 := by
    rw [hf, field_skip pre _ 4 4 _ rfl, F 0, H _ _ hw1]
  have e3 : field (pre ++ (encode e ++ rest)) (pre.length + 8) 4 = e.length := by
    rw [hf, field_skip pre _ 8 4 _ rfl, F 4, F 0, H _ _ hlen]
  have e4 : field (pre ++ (encode e ++ rest)) (pre.length + 12) 4 = e.offset := by
    rw [hf, field_skip pre _ 12 4 _ rfl, F 8, F 4, F 0, H _ _ hoff]
  have e5 : field (pre ++ (encode e ++ rest)) (pre.length + 16) 4 = e.ff1 := by
    rw [hf, field_skip pre _ 16 4 _ rfl, F 12, F 8, F 4, F 0, H _ _ hff1]
  have e6 : field (pre ++ (encode e ++ rest)) (pre.length + 20) 4 = e.ff2 := by
    rw [hf, field_skip pre _ 20 4 _ rfl, F 16, F 12, F 8, F 4, F 0, H _ _ hff2]
  have e7 : ((pre ++ (encode e ++ rest)).drop (pre.length + 26)).take e.nameLength = e.name := by
    have hsplit : pre ++ (encode e ++ rest) =
        (pre ++ (bytesLE 4 e.type ++ bytesLE 4 e.w1 ++ bytesLE 4 e.length ++
          bytesLE 4 e.offset ++ bytesLE 4 e.ff1 ++ bytesLE 4 e.ff2 ++
          bytesLE 2 e.nameLength)) ++ (e.name ++ rest) := by
      simp only [encode, List.append_assoc]
    rw [hsplit, List.drop_left' (by simp only [List.length_append, length_bytesLE]),
      ← hname, List.take_left]
  rw [e1, e2, e3, e4, e5, e6, e7]

theorem decode_some_cond (f : List u8) (pos : Nat) (e : entry)
    (hd : (decode f pos).decoded = some e) :
    1 ≤ field f (pos + 24) 2 ∧ field f (pos + 24) 2 ≤ 4096 ∧
      pos + 26 + field f (pos + 24) 2 ≤ f.length := by
  unfold decode at hd
  dsimp only at hd
  split_ifs at hd with h1 h2 h3
  have hr := fread_ret_one f pos 26 (by simpa using h1)
  rw [fread_full f pos 26 hr.1 hr.2] at h2 h3
  simp only [field_take_drop f pos 26 24 2 (by decide)] at h2 h3
  have hn := fread_ret_one f (pos + 26) _ (by simpa using h3)
  omega

theorem decode_some_eq (f : List u8) (pos : Nat) (e : entry)
    (hd : (decode f pos).decoded = some e) :
    decode f pos =
      ⟨[.fread pos 26, .fread (pos + 26) e.nameLength], pos + 26 + e.nameLength, some e⟩ ∧
    1 ≤ e.nameLength ∧ pos + 26 + e.nameLength ≤ f.length ∧ e.offset < 2 ^ 32 ∧
    e.nameLength = field f (pos + 24) 2 ∧ e.offset = field f (pos + 12) 4 := by
  obtain ⟨h1, h2, h3⟩ := decode_some_cond f pos e hd
  have hok := decode_ok f pos _ rfl h1 h2 h3
  rw [hok] at hd
  simp only [Option.some.injEq] at hd
  subst hd
  refine ⟨hok, h1, h3, ?_, rfl, rfl⟩
  have hlt := le_lt ((f.drop (pos + 12)).take 4)
  have hlen : ((f.drop (pos + 12)).take 4).length ≤ 4 := by
    rw [List.length_take]; omega
  calc field f (pos + 12) 4 < 256 ^ ((f.drop (pos + 12)).take 4).length := hlt
    _ ≤ 256 ^ 4 := Nat.pow_le_pow_right (by decide) hlen
    _ = 2 ^ 32 := by norm_num

theorem decode_some (f : List u8) (pos : Nat) (e : entry)
    (hd : (decode f pos).decoded = some e) :
    e.name.length = e.nameLength ∧ 1 ≤ e.nameLength ∧ e.nameLength ≤ 4096 := by
  unfold decode at hd
  dsimp only at hd
  split_ifs at hd with h1 h2 h3
  simp only [Option.some.injEq] at hd
  subst hd
  simp only
  have hr := fread_ret_one f _ _ (by simpa using h3)
  rw [fread_full f _ _ hr.1 hr.2]
  refine ⟨?_, by omega, by omega⟩
  simp only [List.length_take, List.length_drop]
  omega

theorem fsActions_decode (f : List u8) (p : Nat) : fsActions (decode f p).events = [] := by
  unfold decode
  dsimp only
  split_ifs <;> rfl

theorem fsActions_append (a b : List Event) :
    fsActions (a ++ b) = fsActions a ++ fsActions b := by
  simp only [fsActions, List.filter_append]

theorem fsActions_report (out : Sink) (e : entry) : fsActions (report out e) = [] := rfl

theorem flatMap_eq_nil (l : List entry) (g : entry → List Event) (h : ∀ e, g e = []) :
    l.flatMap g = [] := by
  induction l with
  | nil => rfl
  | cons a l ih => rw [List.flatMap_cons, h a, ih]; rfl

theorem sample_layout : sample = container samplePre 2 [dotEntry, fileEntry] [0x2A] := by
  decide

/-! ## Lemmas on the cursor and on C strings -/

theorem toInt_of_lt (p : Nat) (h : p < 2 ^ 31) : toInt p = (p : Int) := by
  have hm : p % 2 ^ 32 = p := Nat.mod_eq_of_lt (by omega)
  unfold toInt
  rw [hm, if_pos h]

theorem fseek_natCast (q p : Nat) : fseek q (p : Int) = p := by
  unfold fseek
  rw [if_neg (by omega)]
  exact Int.toNat_natCast p

theorem toInt_neg (p : Nat) (h1 : 2 ^ 31 ≤ p) (h2 : p < 2 ^ 32) : toInt p < 0 := by
  have hm : p % 2 ^ 32 = p := Nat.mod_eq_of_lt h2
  unfold toInt
  rw [hm, if_neg (by omega)]
  omega

theorem cstr_of_not_mem (buf : List u8) (h : (0 : u8) ∉ buf) : cstr buf = buf := by
  unfold cstr
  rw [List.takeWhile_eq_self_iff]
  intro b hb
  have hne : b ≠ 0 := fun h0 => h (h0 ▸ hb)
  simpa using hne

/-! ## Lemmas on one iteration -/

theorem act_report_mode (env : Env) (argc : Nat) (f : List u8) (pos : Nat) (e : entry)
    (h : argc ≠ 2) : act env argc f pos e = ⟨[], pos, false⟩ := by
  simp [act, h]

theorem act_file (env : Env) (f : List u8) (pos : Nat) (e : entry)
    (hk : e.type = VOL_TYPE_FILE) : act env 2 f pos e = extract env f pos e := by
  simp [act, hk]

theorem act_other (env : Env) (f : List u8) (pos : Nat) (e : entry)
    (hk : e.type ≠ VOL_TYPE_FILE) :
    act env 2 f pos e =
      if e.nameLength = 1 ∧ e.name.headD 0 = 46 then ⟨[], pos, false⟩
      else ⟨[.mkdir (cstr e.name)], pos, false⟩ := by
  simp only [act, hk, false_and, if_false, true_and]
  split_ifs <;> simp_all

theorem act_not_file (env : Env) (argc : Nat) (f : List u8) (pos : Nat) (e : entry)
    (h : ¬(argc = 2 ∧ e.type = VOL_TYPE_FILE)) :
    (act env argc f pos e).pos = pos ∧ (act env argc f pos e).fault = false := by
  unfold act
  rw [if_neg (fun hc => h ⟨hc.2, hc.1⟩)]
  split_ifs <;> exact ⟨rfl, rfl⟩

theorem extract_buffer (f : List u8) (target length : Nat) :
    (fread f target length).buf.map some ++
        (List.replicate length (none : Option u8)).drop (fread f target length).buf.length =
      (fread f target length).buf.map some ++
        List.replicate (length - (fread f target length).buf.length) none := by
  rw [List.drop_replicate]

theorem extract_ok (env : Env) (f : List u8) (pos : Nat) (e : entry) (hc : pos < 2 ^ 31)
    (hmal : e.length = 0 ∨ env.malloc e.length = true)
    (hfo : env.fopen (cstr e.name) = true) :
    extract env f pos e =
      ⟨[.fseek ((e.offset + 4) % 2 ^ 32 : Nat),
          .fread ((e.offset + 4) % 2 ^ 32) e.length, .fseek (pos : Nat),
          .save (cstr e.name)
            ((fread f ((e.offset + 4) % 2 ^ 32) e.length).buf.map some ++
              List.replicate
                (e.length - (fread f ((e.offset + 4) % 2 ^ 32) e.length).buf.length) none)],
        pos, false⟩ := by
  have hno : ¬(e.length ≠ 0 ∧ env.malloc e.length = false) := by
    rintro ⟨h0, hf⟩
    rcases hmal with h | h
    · exact h0 h
    · rw [h] at hf; exact Bool.noConfusion hf
  unfold extract
  simp only [hno, if_false, hfo, if_true, toInt_of_lt pos hc, fseek_natCast, extract_buffer]

theorem act_served (env : Env) (argc : Nat) (f : List u8) (pos : Nat) (e : entry)
    (h : argc = 2 → e.type = VOL_TYPE_FILE →
      pos < 2 ^ 31 ∧ (e.length = 0 ∨ env.malloc e.length = true) ∧
        env.fopen (cstr e.name) = true) :
    (act env argc f pos e).pos = pos ∧ (act env argc f pos e).fault = false := by
  by_cases hc : argc = 2 ∧ e.type = VOL_TYPE_FILE
  · obtain ⟨ha, hk⟩ := hc
    subst ha
    obtain ⟨h1, h2, h3⟩ := h rfl hk
    rw [act_file env f pos e hk, extract_ok env f pos e h1 h2 h3]
    exact ⟨rfl, rfl⟩
  · exact act_not_file env argc f pos e hc

theorem iteration_none (env : Env) (argc : Nat) (out : Sink) (f : List u8) (pos : Nat)
    (hd : (decode f pos).decoded = none) :
    iteration env argc out f pos = ⟨(decode f pos).events, (decode f pos).pos, none, false⟩ := by
  unfold iteration
  simp only [hd]

theorem iteration_some (env : Env) (argc : Nat) (out : Sink) (f : List u8) (pos : Nat)
    (e : entry) (hd : (decode f pos).decoded = some e) :
    iteration env argc out f pos =
      ⟨[.fread pos 26, .fread (pos + 26) e.nameLength] ++ report out e ++
          (act env argc f (pos + 26 + e.nameLength) e).events,
        (act env argc f (pos + 26 + e.nameLength) e).pos, some e,
        (act env argc f (pos + 26 + e.nameLength) e).fault⟩ := by
  have hdec := (decode_some_eq f pos e hd).1
  unfold iteration
  rw [hdec]

theorem fsActions_iteration (env : Env) (argc : Nat) (out : Sink) (f : List u8) (pos : Nat)
    (e : entry) (hd : (decode f pos).decoded = some e) :
    fsActions (iteration env argc out f pos).events =
      fsActions (act env argc f (pos + 26 + e.nameLength) e).events := by
  rw [iteration_some env argc out f pos e hd]
  simp only [fsActions_append, fsActions_report, List.append_nil]
  rfl

theorem fsActions_act_pos (env : Env) (argc : Nat) (f : List u8) (pos : Nat) (e : entry) :
    fsActions (act env argc f pos e).events = fsActions (act env argc f 0 e).events := by
  unfold act extract
  dsimp only
  split_ifs <;> rfl

theorem act_report_sink (env : Env) (argc : Nat) (f : List u8) (pos : Nat) (e : entry)
    (h : argc ≠ 2) : fsActions (act env argc f pos e).events = [] := by
  rw [act_report_mode env argc f pos e h]
  rfl

/-! ## Lemmas on the loop -/

theorem loop_zero (env : Env) (argc : Nat) (out : Sink) (f : List u8) (pos : Nat) :
    loop env argc out f 0 pos = ⟨[], [], pos, false⟩ := rfl

theorem loop_succ_none (env : Env) (argc : Nat) (out : Sink) (f : List u8) (n pos : Nat)
    (hd : (decode f pos).decoded = none) :
    loop env argc out f (n + 1) pos =
      ⟨[], (decode f pos).events, (decode f pos).pos, false⟩ := by
  simp only [loop, iteration_none env argc out f pos hd]

theorem loop_succ_fault (env : Env) (argc : Nat) (out : Sink) (f : List u8) (n pos : Nat)
    (e : entry) (hd : (decode f pos).decoded = some e)
    (hf : (act env argc f (pos + 26 + e.nameLength) e).fault = true) :
    loop env argc out f (n + 1) pos =
      ⟨[e], [.fread pos 26, .fread (pos + 26) e.nameLength] ++ report out e ++
          (act env argc f (pos + 26 + e.nameLength) e).events,
        (act env argc f (pos + 26 + e.nameLength) e).pos, true⟩ := by
  simp only [loop, iteration_some env argc out f pos e hd, hf, if_true]

theorem loop_succ_some (env : Env) (argc : Nat) (out : Sink) (f : List u8) (n pos : Nat)
    (e : entry) (hd : (decode f pos).decoded = some e)
    (hf : (act env argc f (pos + 26 + e.nameLength) e).fault = false) :
    loop env argc out f (n + 1) pos =
      ⟨e :: (loop env argc out f n (act env argc f (pos + 26 + e.nameLength) e).pos).entries,
        ([.fread pos 26, .fread (pos + 26) e.nameLength] ++ report out e ++
            (act env argc f (pos + 26 + e.nameLength) e).events) ++
          (loop env argc out f n (act env argc f (pos + 26 + e.nameLength) e).pos).events,
        (loop env argc out f n (act env argc f (pos + 26 + e.nameLength) e).pos).pos,
        (loop env argc out f n (act env argc f (pos + 26 + e.nameLength) e).pos).fault⟩ := by
  simp only [loop, iteration_some env argc out f pos e hd, hf, Bool.false_eq_true, if_false]

theorem served_cons (env : Env) (argc pos : Nat) (e : entry) (es : List entry) :
    Served env argc pos (e :: es) ↔
      (argc = 2 → e.type = VOL_TYPE_FILE → CanExtract env pos e) ∧
        Served env argc (pos + 26 + e.nameLength) es := by
  rfl

theorem loop_table (env : Env) (argc : Nat) (out : Sink) (f : List u8) (recs : List entry) :
    ∀ (pre rest : List u8) (m : Nat), f = pre ++ (recs.flatMap encode ++ rest) →
      (∀ e ∈ recs, Valid e) → Served env argc pre.length recs →
      loop env argc out f (recs.length + m) pre.length =
        ⟨recs ++ (loop env argc out f m (pre.length + (recs.flatMap encode).length)).entries,
          tableEvents env argc out f pre.length recs ++
            (loop env argc out f m (pre.length + (recs.flatMap encode).length)).events,
          (loop env argc out f m (pre.length + (recs.flatMap encode).length)).pos,
          (loop env argc out f m (pre.length + (recs.flatMap encode).length)).fault⟩ := by
  induction recs with
  | nil => intro pre rest m _ _ _; simp [tableEvents]
  | cons e es ih =>
    intro pre rest m hf hv hs
    have hve : Valid e := hv e (List.mem_cons_self _ _)
    obtain ⟨hse, hses⟩ := (served_cons env argc pre.length e es).mp hs
    have hf1 : f = pre ++ (encode e ++ (es.flatMap encode ++ rest)) := by
      rw [hf]; simp only [List.flatMap_cons, List.append_assoc]
    have hf2 : f = (pre ++ encode e) ++ (es.flatMap encode ++ rest) := by
      rw [hf1]; simp only [List.append_assoc]
    have hlen : (pre ++ encode e).length = pre.length + 26 + e.nameLength := by
      rw [List.length_append, length_encode, hve.1.2.2.2.2.2.2.2]; omega
    have hd : (decode f pre.length).decoded = some e := by
      rw [hf1, decode_encode pre _ e hve]
    have hact := act_served env argc f (pre.length + 26 + e.nameLength) e
      (fun ha hk => hse ha hk)
    rw [← hlen] at hses
    have hih := ih (pre ++ encode e) rest m hf2 (fun x hx => hv x (List.mem_cons_of_mem _ hx))
      hses
    have hpos : pre.length + ((e :: es).flatMap encode).length =
        (pre ++ encode e).length + (es.flatMap encode).length := by
      simp only [List.flatMap_cons, List.length_append]; omega
    have hsucc : (e :: es).length + m = (es.length + m) + 1 := by
      simp only [List.length_cons]; omega
    rw [hpos, hsucc, loop_succ_some env argc out f _ pre.length e hd hact.2, hact.1, ← hlen, hih]
    simp only [tableEvents, List.cons_append, List.append_assoc, hlen]

theorem fsActions_loop (env : Env) (argc : Nat) (out : Sink) (f : List u8) (n : Nat) :
    ∀ pos, fsActions (loop env argc out f n pos).events =
      (loop env argc out f n pos).entries.flatMap
        (fun e => fsActions (act env argc f 0 e).events) := by
  induction n with
  | zero => intro pos; rfl
  | succ n ih =>
    intro pos
    cases hd : (decode f pos).decoded with
    | none =>
      rw [loop_succ_none env argc out f n pos hd]
      exact fsActions_decode f pos
    | some e =>
      cases hf : (act env argc f (pos + 26 + e.nameLength) e).fault with
      | true =>
        rw [loop_succ_fault env argc out f n pos e hd hf]
        simp only [fsActions_append, fsActions_report, List.append_nil, List.flatMap_cons,
          List.flatMap_nil, fsActions_act_pos env argc f (pos + 26 + e.nameLength) e]
        rfl
      | false =>
        rw [loop_succ_some env argc out f n pos e hd hf]
        simp only [fsActions_append, fsActions_report, ih, List.append_nil, List.flatMap_cons,
          fsActions_act_pos env argc f (pos + 26 + e.nameLength) e]
        rfl

theorem main_eq_run (env : Env) (argc : Nat) (f : List u8) (logOk : Bool) (uninit : Nat)
    (hm : Parses argc logOk) :
    main env argc (some f) logOk uninit = run env argc (outOf argc) f uninit := by
  unfold main outOf
  rcases hm with h | ⟨h, hl⟩
  · subst h; simp
  · simp [h, hl]

theorem run_pvol (env : Env) (argc : Nat) (out : Sink) (f : List u8) (uninit : Nat)
    (h4 : 4 ≤ f.length) (htag : field f 0 4 = 0x4C4F5650) :
    run env argc out f uninit = ⟨1, [], [.fread 0 4,
      .printf "this looks like a PVOL file, try a program that supports other .vol files\n" []]⟩ := by
  unfold run
  rw [field_zero] at htag
  simp only [fread_header f h4, htag, if_true]

theorem run_bad_header (env : Env) (argc : Nat) (out : Sink) (f : List u8) (uninit : Nat)
    (h4 : 4 ≤ f.length) (htag : field f 0 4 ≠ 0x4C4F5650)
    (hcount : f.length < field f 0 4 + 4) :
    run env argc out f uninit =
      ⟨1, [], [.fread 0 4, .fprintf out "offset:     0x%08X\n" [.num (field f 0 4)],
        .fseek (field f 0 4), .fread (field f 0 4) 4, .printf "file incorrect format\n" []]⟩ := by
  have h0 : field f 0 4 = le (f.take 4) := field_zero f 4
  have hr := fread_short f (le (f.take 4)) 4 (by rw [← h0]; exact hcount)
  unfold run
  rw [h0] at htag
  simp only [fread_header f h4, if_true, htag, if_false, hr, ne_eq, h0]
  simp

theorem run_header (env : Env) (argc : Nat) (out : Sink) (f : List u8) (uninit : Nat)
    (h4 : 4 ≤ f.length) (htag : field f 0 4 ≠ 0x4C4F5650)
    (hcount : field f 0 4 + 4 ≤ f.length)
    (hal : Allocated env (field f (field f 0 4) 4)) :
    run env argc out f uninit =
      ⟨if (loop env argc out f (field f (field f 0 4) 4) (field f 0 4 + 4)).fault
          then faultStatus else 0,
        (loop env argc out f (field f (field f 0 4) 4) (field f 0 4 + 4)).entries,
        headerEvents out (field f 0 4) (field f (field f 0 4) 4) ++
          (loop env argc out f (field f (field f 0 4) 4) (field f 0 4 + 4)).events⟩ := by
  have h0 : field f 0 4 = le (f.take 4) := field_zero f 4
  have hr := fread_full f (le (f.take 4)) 4 (by decide) (by rw [← h0]; exact hcount)
  have hc : field f (le (f.take 4)) 4 = le ((f.drop (le (f.take 4))).take 4) := rfl
  have hno : ¬(le ((f.drop (le (f.take 4))).take 4) ≠ 0 ∧
      env.malloc (sizeofEntry * le ((f.drop (le (f.take 4))).take 4)) = false) := by
    rintro ⟨hz, hf⟩
    rw [h0, hc] at hal
    rcases hal with h | h
    · exact hz h
    · rw [h] at hf; exact Bool.noConfusion hf
  unfold run
  rw [h0] at htag
  simp only [fread_header f h4, if_true, htag, if_false, hr, ne_eq, not_true_eq_false, h0, hc]
  rw [if_neg hno]
  rfl

theorem fsActions_run (env : Env) (argc : Nat) (out : Sink) (f : List u8) (uninit : Nat) :
    fsActions (run env argc out f uninit).trace =
      (run env argc out f uninit).entries.flatMap
        (fun e => fsActions (act env argc f 0 e).events) := by
  unfold run
  dsimp only
  split_ifs <;> first
    | rfl
    | (simp only [fsActions_append, fsActions_loop]; rfl)

theorem run_container (env : Env) (argc : Nat) (out : Sink) (pre rest : List u8)
    (recs : List entry) (m uninit : Nat)
    (h4 : 4 ≤ (container pre (recs.length + m) recs rest).length)
    (hoff : field (container pre (recs.length + m) recs rest) 0 4 = pre.length)
    (htag : pre.length ≠ 0x4C4F5650) (hn : recs.length + m < 2 ^ 32)
    (hv : ∀ e ∈ recs, Valid e) (hal : Allocated env (recs.length + m))
    (hs : Served env argc (pre.length + 4) recs) :
    run env argc out (container pre (recs.length + m) recs rest) uninit =
      ⟨if (loop env argc out (container pre (recs.length + m) recs rest) m
            (pre.length + 4 + (recs.flatMap encode).length)).fault then faultStatus else 0,
        recs ++ (loop env argc out (container pre (recs.length + m) recs rest) m
            (pre.length + 4 + (recs.flatMap encode).length)).entries,
        headerEvents out pre.length (recs.length + m) ++
          (tableEvents env argc out (container pre (recs.length + m) recs rest)
            (pre.length + 4) recs ++
          (loop env argc out (container pre (recs.length + m) recs rest) m
            (pre.length + 4 + (recs.flatMap encode).length)).events)⟩ := by
  set f := container pre (recs.length + m) recs rest with hf
  have hlen : pre.length + 4 ≤ f.length := by
    simp only [hf, container, List.length_append, length_bytesLE]; omega
  have hcnt : field f pre.length 4 = recs.length + m := by
    rw [hf, container, field_skip pre _ 0 4 pre.length rfl,
      field_head _ _ 4 (length_bytesLE 4 _).symm, le_bytesLE_of_lt 4 _ (by simpa using hn)]
  have hf2 : f = (pre ++ bytesLE 4 (recs.length + m)) ++ (recs.flatMap encode ++ rest) := by
    simp only [hf, container, List.append_assoc]
  have hl2 : (pre ++ bytesLE 4 (recs.length + m)).length = pre.length + 4 := by
    rw [List.length_append, length_bytesLE]
  have hloop := loop_table env argc out f recs _ rest m hf2 hv (by rw [hl2]; exact hs)
  rw [hl2] at hloop
  rw [run_header env argc out f uninit h4 (by rw [hoff]; exact htag)
    (by rw [hoff]; exact hlen) (by rw [hoff, hcnt]; exact hal), hoff, hcnt, hloop]

theorem padded_length (pad : List u8) (n : Nat) (hp : pad.length = n) :
    (wrapHead ++ (pad ++ [0xAA])).length = 35 + n + 1 := by
  have h : wrapHead.length = 35 := rfl
  simp only [List.length_append, List.length_cons, List.length_nil, hp, h]
  omega

theorem padded_last (pad : List u8) (n : Nat) (hp : pad.length = n) :
    ((wrapHead ++ (pad ++ [0xAA])).drop (35 + n)).take 1 = [0xAA] := by
  have hl : (wrapHead ++ pad).length = 35 + n := by
    have h : wrapHead.length = 35 := rfl
    simp only [List.length_append, hp, h]
  rw [← List.append_assoc, List.drop_left' hl]
  rfl

theorem served_not_file (env : Env) (argc pos : Nat) (e : entry)
    (hk : e.type ≠ VOL_TYPE_FILE) : Served env argc pos [e] :=
  ⟨fun _ h => absurd h hk, trivial⟩

theorem lopv_run (pad : List u8) (hp : pad.length = 1448103752) :
    field (container ([0x4C, 0x4F, 0x50, 0x56] ++ pad) 1 [dirEntry] []) 0 4 = 0x56504F4C ∧
    (main hostEnv 2 (some (container ([0x4C, 0x4F, 0x50, 0x56] ++ pad) 1 [dirEntry] []))
      true 0).exit = 0 ∧
    (main hostEnv 2 (some (container ([0x4C, 0x4F, 0x50, 0x56] ++ pad) 1 [dirEntry] []))
      true 0).entries = [dirEntry] ∧
    fsActions
      (main hostEnv 2 (some (container ([0x4C, 0x4F, 0x50, 0x56] ++ pad) 1 [dirEntry] []))
        true 0).trace = [.mkdir dirEntry.name] := by
  have hpre : ([0x4C, 0x4F, 0x50, 0x56] ++ pad : List u8).length = 0x56504F4C := by
    simp only [List.length_append, List.length_cons, List.length_nil, hp]
  have hfield : field (container ([0x4C, 0x4F, 0x50, 0x56] ++ pad) 1 [dirEntry] []) 0 4
      = 0x56504F4C := by
    simp only [container, List.append_assoc]
    rw [field_head [0x4C, 0x4F, 0x50, 0x56] _ 4 rfl]
    decide
  have h4 : 4 ≤ (container ([0x4C, 0x4F, 0x50, 0x56] ++ pad) 1 [dirEntry] []).length := by
    simp only [container, List.length_append, List.length_cons, List.length_nil]
    omega
  have h := run_container hostEnv 2 .stdout ([0x4C, 0x4F, 0x50, 0x56] ++ pad) [] [dirEntry] 0 0
    h4 (by rw [hpre]; exact hfield) (by rw [hpre]; decide) (by decide) (by decide)
    (by decide) (served_not_file hostEnv 2 _ dirEntry (by decide))
  simp only [Nat.add_zero, loop_zero, List.append_nil, List.length_singleton] at h
  have hm : main hostEnv 2
      (some (container ([0x4C, 0x4F, 0x50, 0x56] ++ pad) 1 [dirEntry] [])) true 0
      = run hostEnv 2 .stdout (container ([0x4C, 0x4F, 0x50, 0x56] ++ pad) 1 [dirEntry] []) 0 :=
    main_eq_run hostEnv 2 _ true 0 (Or.inl rfl)
  rw [hm, h]
  refine ⟨hfield, rfl, rfl, ?_⟩
  simp only [fsActions_append]
  rfl

/-- C2: at a cursor `p` with `26 + n` bytes available, `n` the little-endian
`u16` at `p + 24` and `1 ≤ n ≤ 4096`, the decoder issues the two reads, yields
the six little-endian `u32` at `p`, `p + 4`, ..., `p + 20` as `type`, `w1`,
`length`, `offset`, `ff1`, `ff2`, the name length `n` and the `n` bytes at
`p + 26` as name, and leaves the cursor at `p + 26 + n`. -/
theorem decode_entry_layout (f : List u8) (p n : Nat) (hn : n = field f (p + 24) 2)
    (h1 : 1 ≤ n) (h2 : n ≤ 4096) (hav : p + 26 + n ≤ f.length) :
    decode f p =
      ⟨[.fread p 26, .fread (p + 26) n], p + 26 + n,
        some { type := field f p 4, w1 := field f (p + 4) 4, length := field f (p + 8) 4,
               offset := field f (p + 12) 4, ff1 := field f (p + 16) 4,
               ff2 := field f (p + 20) 4, nameLength := n,
               name := (f.drop (p + 26)).take n }⟩ :=
  decode_ok f p n hn h1 h2 hav

/-- Witness of C2: the second record of the sample container, at cursor 35. -/
theorem decode_entry_layout_witness :
    decode sample 35 = ⟨[.fread 35 26, .fread 61 1], 62, some fileEntry⟩ :=
  decode_entry_layout sample 35 1 (by decide) (by decide) (by decide) (by decide)

/-- C3, counterexample: in the container `wrapStream` of `2^32 + 1` bytes the
only entry is the file `wrapEntry` with `offset = 0xFFFFFFFC`, `length = 1`;
its range `offset + 4 .. offset + 4 + length` lies inside the stream and
holds the byte 0xAA, but extract mode writes the byte at position 0, 0x04.
And for the file "." of the container of C1, whose range lies inside the
stream and does not wrap, nothing is written: the destination cannot be
opened. -/
theorem offset_wrap_counterexample :
    (main hostEnv 2 (some wrapStream) true 0).entries = [wrapEntry] ∧
    wrapEntry.type = VOL_TYPE_FILE ∧
    wrapEntry.offset + 4 + wrapEntry.length ≤ wrapStream.length ∧
    (wrapStream.drop (wrapEntry.offset + 4)).take wrapEntry.length = [0xAA] ∧
    fsActions (main hostEnv 2 (some wrapStream) true 0).trace
      = [.save wrapEntry.name [some 0x04]] ∧
    (decode (container samplePre 2 [dotFile, dirEntry] [0x2A]) 8).decoded = some dotFile ∧
    dotFile.type = VOL_TYPE_FILE ∧
    dotFile.offset + 4 + dotFile.length ≤
      (container samplePre 2 [dotFile, dirEntry] [0x2A]).length ∧
    fsActions (main hostEnv 2 (some (container samplePre 2 [dotFile, dirEntry] [0x2A]))
      true 0).trace = [] := by
  have hlen : wrapStream.length = 35 + 4294967261 + 1 :=
    padded_length (List.replicate 4294967261 0) 4294967261 (List.length_replicate _ _)
  refine ⟨by decide, rfl, ?_, ?_, by decide, by decide, rfl, by decide, by decide⟩
  · rw [hlen]; decide
  · exact padded_last (List.replicate 4294967261 0) 4294967261 (List.length_replicate _ _)

/-- C3, amended: in extract mode, for a decoded file entry with
`offset + 4 < 2^32` whose range `offset + 4 .. offset + 4 + length` lies
inside the stream, whose data buffer is allocated (or `length = 0`) and whose
destination can be opened, the one file-system action of the iteration
writes, to the file named by the entry's name up to its first NUL, exactly the
`length` stream bytes at `offset + 4`. -/
theorem extract_roundtrip (env : Env) (out : Sink) (f : List u8) (pos : Nat) (e : entry)
    (hd : (decode f pos).decoded = some e) (hk : e.type = VOL_TYPE_FILE)
    (ho : e.offset + 4 < 2 ^ 32) (hin : e.offset + 4 + e.length ≤ f.length)
    (hmal : e.length = 0 ∨ env.malloc e.length = true)
    (hfo : env.fopen (cstr e.name) = true) :
    fsActions (iteration env 2 out f pos).events =
      [.save (e.name.takeWhile fun b => b ≠ 0)
        (((f.drop (e.offset + 4)).take e.length).map some)] := by
  rw [fsActions_iteration env 2 out f pos e hd, fsActions_act_pos, act_file env f _ e hk,
    extract_ok env f 0 e (by decide) hmal hfo, Nat.mod_eq_of_lt ho]
  have hbuf : (fread f (e.offset + 4) e.length).buf.map some ++
      List.replicate (e.length - (fread f (e.offset + 4) e.length).buf.length) none =
      ((f.drop (e.offset + 4)).take e.length).map some := by
    by_cases hl : e.length = 0
    · simp [hl, fread_zero]
    · rw [fread_full f _ _ hl hin]
      have hlen : ((f.drop (e.offset + 4)).take e.length).length = e.length := by
        rw [List.length_take, List.length_drop]; omega
      simp [hlen]
  rw [hbuf]
  rfl

/-- Witness of C3 (amended): the file "a" of the sample container. -/
theorem extract_roundtrip_witness :
    fsActions (iteration hostEnv 2 .stdout sample 35).events = [.save [97] [some 0x2A]] :=
  extract_roundtrip hostEnv .stdout sample 35 fileEntry (by decide) (by decide) (by decide)
    (by decide) (by decide) (by decide)

/-- C4: a stream that starts with the bytes 'P','V','O','L' is rejected in
either mode: exit indicator 1, no entry decoded, and the whole trace is the
first 4-byte read followed by the diagnostic on stdout; so there is no report
line, no file-system action and no access to the stream after the first
read. -/
theorem pvol_rejected (env : Env) (argc : Nat) (logOk : Bool) (uninit : Nat) (f : List u8)
    (hm : Parses argc logOk) (hb : f.take 4 = [0x50, 0x56, 0x4F, 0x4C]) :
    main env argc (some f) logOk uninit =
      ⟨1, [], [.fread 0 4,
        .printf "this looks like a PVOL file, try a program that supports other .vol files\n"
          []]⟩ ∧
    reportLines (main env argc (some f) logOk uninit).trace = [] ∧
    fsActions (main env argc (some f) logOk uninit).trace = [] ∧
    accesses (main env argc (some f) logOk uninit).trace = [.fread 0 4] := by
  have h4 : 4 ≤ f.length := by
    have h := congrArg List.length hb
    rw [List.length_take] at h
    simp only [List.length_cons, List.length_nil] at h
    omega
  have htag : field f 0 4 = 0x4C4F5650 := by
    rw [field_zero, hb]; decide
  rw [main_eq_run env argc f logOk uninit hm, run_pvol env argc _ f uninit h4 htag]
  exact ⟨rfl, rfl, rfl, rfl⟩

/-- Witness of C4: a PVOL stream in report mode. -/
theorem pvol_rejected_witness :
    (main hostEnv 3 (some [0x50, 0x56, 0x4F, 0x4C, 1, 2, 3, 4, 5]) true 0).exit = 1 :=
  congrArg Result.exit
    (pvol_rejected hostEnv 3 true 0 [0x50, 0x56, 0x4F, 0x4C, 1, 2, 3, 4, 5] (by decide)
      (by decide)).1

/-- C5, counterexample: the table offset of `lopvStream` is 0x56504F4C, and
the run in extract mode is not rejected: it exits with 0, decodes the entry of
the table and creates its directory. -/
theorem reserved_value_counterexample :
    field lopvStream 0 4 = 0x56504F4C ∧
    (main hostEnv 2 (some lopvStream) true 0).exit = 0 ∧
    (main hostEnv 2 (some lopvStream) true 0).entries = [dirEntry] ∧
    fsActions (main hostEnv 2 (some lopvStream) true 0).trace = [.mkdir dirEntry.name] := by
  have h := lopv_run (List.replicate 1448103752 0) (List.length_replicate _ _)
  exact ⟨h.1, h.2.1, h.2.2.1, h.2.2.2⟩

/-- C5, amended: a container whose table offset, the little-endian `u32` at
bytes 0..4, is 0x4C4F5650 is rejected as an unsupported format in either
mode: the exit indicator is not 0, no entry is decoded and the PVOL diagnostic
is printed. -/
theorem reserved_value_rejected (env : Env) (argc : Nat) (logOk : Bool) (uninit : Nat)
    (f : List u8) (hm : Parses argc logOk) (h4 : 4 ≤ f.length)
    (htag : field f 0 4 = 0x4C4F5650) :
    (main env argc (some f) logOk uninit).exit ≠ 0 ∧
    (main env argc (some f) logOk uninit).entries = [] ∧
    Event.printf "this looks like a PVOL file, try a program that supports other .vol files\n" []
      ∈ (main env argc (some f) logOk uninit).trace := by
  rw [main_eq_run env argc f logOk uninit hm, run_pvol env argc _ f uninit h4 htag]
  exact ⟨by decide, rfl, by simp⟩

/-- Witness of C5 (amended): a stream of 4 bytes holding 0x4C4F5650. -/
theorem reserved_value_rejected_witness :
    (main hostEnv 2 (some [0x50, 0x56, 0x4F, 0x4C]) true 0).exit ≠ 0 :=
  (reserved_value_rejected hostEnv 2 true 0 [0x50, 0x56, 0x4F, 0x4C] (by decide) (by decide)
    (by decide)).1

/-- C6, the code at the failing input: the container `unknownSample` holds one
entry of kind 0x20 named "x"; in extract mode the entry is decoded and the
directory "x" is created. -/
theorem unknown_kind_creates_directory :
    (main hostEnv 2 (some unknownSample) true 0).exit = 0 ∧
    (main hostEnv 2 (some unknownSample) true 0).entries = [unknownEntry] ∧
    unknownEntry.type ≠ VOL_TYPE_FILE ∧ unknownEntry.type ≠ VOL_TYPE_DIR ∧
    fsActions (main hostEnv 2 (some unknownSample) true 0).trace
      = [.mkdir unknownEntry.name] := by
  decide

/-- C7, counterexample: the directory record `nulDir` has kind 0x10 and the
2-byte name "." followed by a NUL, so it is not the self-reference; in extract
mode the directory created is ".", the name up to the NUL, and not the entry's
name. -/
theorem nul_name_counterexample :
    (decode (container samplePre 1 [nulDir] []) 8).decoded = some nulDir ∧
    nulDir.type = VOL_TYPE_DIR ∧ ¬(nulDir.nameLength = 1 ∧ nulDir.name = [46]) ∧
    fsActions (iteration hostEnv 2 .stdout (container samplePre 1 [nulDir] []) 8).events
      = [.mkdir [46]] ∧
    fsActions (iteration hostEnv 2 .stdout (container samplePre 1 [nulDir] []) 8).events
      ≠ [.mkdir nulDir.name] := by
  decide

/-- C7, amended: in extract mode, the iteration that decodes an entry of kind
0x10 other than the self-reference (name length 1 and name ".") performs
exactly one file-system action, the creation of the directory named by the
entry's name up to its first NUL, and so no file extraction; that path is the
whole name when the name holds no NUL. -/
theorem directory_created (env : Env) (out : Sink) (f : List u8) (pos : Nat) (e : entry)
    (hd : (decode f pos).decoded = some e) (hk : e.type = VOL_TYPE_DIR)
    (hself : ¬(e.nameLength = 1 ∧ e.name = [46])) :
    fsActions (iteration env 2 out f pos).events = [.mkdir (e.name.takeWhile fun b => b ≠ 0)] ∧
    ((0 : u8) ∉ e.name →
      fsActions (iteration env 2 out f pos).events = [.mkdir e.name]) := by
  have hne : e.type ≠ VOL_TYPE_FILE := by rw [hk]; decide
  have hlen := (decode_some f pos e hd).1
  have hcond : ¬(e.nameLength = 1 ∧ e.name.headD 0 = 46) := by
    rintro ⟨h1, h2⟩
    apply hself
    refine ⟨h1, ?_⟩
    rw [h1] at hlen
    match hn : e.name, hlen with
    | [b], _ => rw [hn] at h2; simpa using h2
  have hfs : fsActions (iteration env 2 out f pos).events = [.mkdir (cstr e.name)] := by
    rw [fsActions_iteration env 2 out f pos e hd, act_other env f _ e hne, if_neg hcond]
    rfl
  refine ⟨hfs, fun h0 => ?_⟩
  rw [hfs, cstr_of_not_mem e.name h0]

/-- Witness of C7 (amended): a table whose only entry is the directory "d". -/
theorem directory_created_witness :
    fsActions (iteration hostEnv 2 .stdout (container samplePre 1 [dirEntry] []) 8).events =
      [.mkdir [100]] :=
  (directory_created hostEnv .stdout (container samplePre 1 [dirEntry] []) 8 dirEntry
    (by decide) (by decide) (by decide)).1

/-- C8: the iteration that decodes the self-reference, an entry of kind 0x10
with name length 1 and name ".", performs no file-system action, in every mode
(`argc`), on every stream and at every cursor position, that is, at every
index of the table. -/
theorem self_reference_ignored (env : Env) (argc : Nat) (out : Sink) (f : List u8) (pos : Nat)
    (e : entry) (hd : (decode f pos).decoded = some e) (hk : e.type = VOL_TYPE_DIR)
    (hl : e.nameLength = 1) (hname : e.name = [46]) :
    fsActions (iteration env argc out f pos).events = [] := by
  have hne : e.type ≠ VOL_TYPE_FILE := by rw [hk]; decide
  rw [fsActions_iteration env argc out f pos e hd]
  by_cases ha : argc = 2
  · subst ha
    have hcond : e.nameLength = 1 ∧ e.name.headD 0 = 46 := ⟨hl, by rw [hname]; rfl⟩
    rw [act_other env f _ e hne, if_pos hcond]
    rfl
  · rw [act_report_mode env argc f _ e ha]
    rfl

/-- Witness of C8: the self-reference as second entry of a table, in extract
mode. -/
theorem self_reference_ignored_witness :
    fsActions (iteration hostEnv 2 .stdout (container samplePre 2 [dirEntry, dotEntry] [])
      35).events = [] :=
  self_reference_ignored hostEnv 2 .stdout (container samplePre 2 [dirEntry, dotEntry] []) 35
    dotEntry (by decide) (by decide) (by decide) (by decide)

/-- C11, the code at the failing input: in `emptyNameSample` the first record
is complete and its name length is 0, and a valid record follows.  The read of
0 name bytes returns 0, so the decoding of the first record ends in `break`:
no entry is decoded, the record that follows is never read, and the run exits
with 0. -/
theorem empty_name_stops_enumeration :
    8 + 26 ≤ emptyNameSample.length ∧ field emptyNameSample (8 + 24) 2 = 0 ∧
    decode emptyNameSample 8 = ⟨[.fread 8 26, .fread 34 0], 34, none⟩ ∧
    decode emptyNameSample 34 = ⟨[.fread 34 26, .fread 60 1], 61, some dirEntry⟩ ∧
    main hostEnv 2 (some emptyNameSample) true 0 =
      ⟨0, [], headerEvents .stdout 4 2 ++ [.fread 8 26, .fread 34 0]⟩ := by
  decide

/-- C13: when the table offset is not the PVOL tag and fewer than 4 bytes are
available at the table offset, the run fails in either mode: the exit
indicator is 1, no entry is decoded, the trace ends with the diagnostic after
the short read of the count, there is no file-system action, and the only
report line is the header line of the offset. -/
theorem bad_header_fatal (env : Env) (argc : Nat) (logOk : Bool) (uninit : Nat) (f : List u8)
    (hm : Parses argc logOk) (h4 : 4 ≤ f.length) (htag : field f 0 4 ≠ 0x4C4F5650)
    (hshort : f.length < field f 0 4 + 4) :
    main env argc (some f) logOk uninit =
      ⟨1, [], [.fread 0 4, .fprintf (outOf argc) "offset:     0x%08X\n" [.num (field f 0 4)],
        .fseek (field f 0 4), .fread (field f 0 4) 4, .printf "file incorrect format\n" []]⟩ ∧
    (main env argc (some f) logOk uninit).exit ≠ 0 ∧
    fsActions (main env argc (some f) logOk uninit).trace = [] ∧
    reportLines (main env argc (some f) logOk uninit).trace =
      [.fprintf (outOf argc) "offset:     0x%08X\n" [.num (field f 0 4)]] := by
  rw [main_eq_run env argc f logOk uninit hm, run_bad_header env argc _ f uninit h4 htag hshort]
  exact ⟨rfl, Nat.one_ne_zero, rfl, rfl⟩

/-- Witness of C13: a stream of 6 bytes whose table offset is 4. -/
theorem bad_header_fatal_witness :
    (main hostEnv 2 (some [4, 0, 0, 0, 1, 0]) true 0).exit ≠ 0 :=
  (bad_header_fatal hostEnv 2 true 0 [4, 0, 0, 0, 1, 0] (by decide) (by decide) (by decide)
    (by decide)).2.1

/-- C14: with an input path and a report path (`argc > 2`) the run performs
no file-system action, whatever the archive holds, whether or not the files
can be opened: no directory is created and no file is written. -/
theorem report_mode_no_fs_action (env : Env) (argc : Nat) (input : Option (List u8))
    (logOk : Bool) (uninit : Nat) (h : 2 < argc) :
    fsActions (main env argc input logOk uninit).trace = [] := by
  have hne : argc ≠ 2 := by omega
  unfold main
  rw [if_pos h]
  cases input with
  | none => rfl
  | some f =>
    cases logOk with
    | false => rfl
    | true =>
      simp only [if_true]
      rw [fsActions_run]
      exact flatMap_eq_nil _ _ (fun e => act_report_sink env argc f 0 e hne)

/-- Witness of C14: the sample container, which holds a file and would have
its file extracted in extract mode, in report mode. -/
theorem report_mode_no_fs_action_witness :
    fsActions (main hostEnv 3 (some sample) true 0).trace = [] :=
  report_mode_no_fs_action hostEnv 3 (some sample) true 0 (by decide)

/-- C16: the action taken for a decoded entry depends on the mode and on the
fields of the entry only.  Two entries with equal fields, decoded at any two
positions of any two streams, get the same action (the same directory name, or
the same file name, seek target and length, or none); and at two positions of
one stream the file-system actions of the two iterations are equal. -/
theorem classification_position_independent (env : Env) (argc : Nat) (out out' : Sink)
    (f f' : List u8) (pos pos' : Nat) (e e' : entry)
    (hd : (decode f pos).decoded = some e)
    (hd' : (decode f' pos').decoded = some e') (heq : e = e') :
    actionOf (act env argc f (decode f pos).pos e).events =
      actionOf (act env argc f' (decode f' pos').pos e').events ∧
    (f = f' → fsActions (iteration env argc out f pos).events =
      fsActions (iteration env argc out' f' pos').events) := by
  subst heq
  constructor
  · generalize (decode f pos).pos = p
    generalize (decode f' pos').pos = p'
    unfold act extract
    dsimp only
    split_ifs <;> simp only [actionOf]
  · intro hf
    subst hf
    rw [fsActions_iteration env argc out f pos e hd,
      fsActions_iteration env argc out' f pos' e hd',
      fsActions_act_pos env argc f _ e, fsActions_act_pos env argc f (pos' + 26 + e.nameLength) e]

/-- Witness of C16: the directory "d" as first and as second entry of one
table. -/
theorem classification_position_independent_witness :
    actionOf (act hostEnv 2 (container samplePre 2 [dirEntry, dirEntry] [])
        (decode (container samplePre 2 [dirEntry, dirEntry] []) 8).pos dirEntry).events =
      actionOf (act hostEnv 2 (container samplePre 2 [dirEntry, dirEntry] [])
        (decode (container samplePre 2 [dirEntry, dirEntry] []) 35).pos dirEntry).events :=
  (classification_position_independent hostEnv 2 .stdout .stdout
    (container samplePre 2 [dirEntry, dirEntry] [])
    (container samplePre 2 [dirEntry, dirEntry] []) 8 35 dirEntry dirEntry (by decide)
    (by decide) rfl).1

/-- C19: for a decoded file entry in extract mode, the extraction first seeks
to `(offset + 4) mod 2^32` and reads `length` bytes there; when the data
buffer is granted, its accesses are exactly that seek, that read and the seek
back with the `int` that holds the cursor.  The target is `offset + 4` exactly
when `offset ≤ 0xFFFFFFFB`, and for `offset` from 0xFFFFFFFC on it is
`offset - 0xFFFFFFFC`, one of 0..3. -/
theorem seek_target_wraps (env : Env) (f : List u8) (pos : Nat) (e : entry)
    (hd : (decode f pos).decoded = some e) (hk : e.type = VOL_TYPE_FILE) :
    (accesses (act env 2 f (decode f pos).pos e).events).take 2 =
      [.fseek (((e.offset + 4) % 2 ^ 32 : Nat) : Int),
        .fread ((e.offset + 4) % 2 ^ 32) e.length] ∧
    (e.length = 0 ∨ env.malloc e.length = true →
      accesses (act env 2 f (decode f pos).pos e).events =
        [.fseek (((e.offset + 4) % 2 ^ 32 : Nat) : Int),
          .fread ((e.offset + 4) % 2 ^ 32) e.length,
          .fseek (toInt (decode f pos).pos)]) ∧
    ((e.offset + 4) % 2 ^ 32 = e.offset + 4 ↔ e.offset ≤ 0xFFFFFFFB) ∧
    (0xFFFFFFFC ≤ e.offset →
      (e.offset + 4) % 2 ^ 32 = e.offset - 0xFFFFFFFC ∧ (e.offset + 4) % 2 ^ 32 < 4) := by
  have hlt : e.offset < 2 ^ 32 := (decode_some_eq f pos e hd).2.2.2.1
  refine ⟨?_, ?_, ?_, ?_⟩
  · rw [act_file env f _ e hk]
    generalize (decode f pos).pos = p
    unfold extract
    dsimp only
    split_ifs <;> rfl
  · intro hm
    have hno : ¬(e.length ≠ 0 ∧ env.malloc e.length = false) := by
      rintro ⟨h0, hf⟩
      rcases hm with h | h
      · exact h0 h
      · rw [h] at hf; exact Bool.noConfusion hf
    rw [act_file env f _ e hk]
    generalize (decode f pos).pos = p
    unfold extract
    dsimp only
    rw [if_neg hno]
    split_ifs <;> rfl
  · constructor
    · intro h
      have := Nat.mod_lt (e.offset + 4) (show 0 < 2 ^ 32 by decide)
      omega
    · intro h
      exact Nat.mod_eq_of_lt (by omega)
  · intro h
    omega

/-- Witness of C19: the entry of `wrapHead`, whose offset is 0xFFFFFFFC; the
extraction seeks to position 0. -/
theorem seek_target_wraps_witness :
    accesses (act hostEnv 2 wrapHead (decode wrapHead 8).pos wrapEntry).events =
      [.fseek 0, .fread 0 1, .fseek 35] :=
  ((seek_target_wraps hostEnv wrapHead 8 wrapEntry (by decide) (by decide)).2.1
    (by decide)).trans (by decide)

end SdeVolExtract
